import Mathlib

/-!
Shallow embedding of the WebSocket signaling server (`src/main.go`).

The Go program keeps three pieces of shared state:
  * `clients   map[string]*Client` — the connection registry,
  * `roomUsers map[string][]string` — room name → ordered member id list,
and per connection a heap-allocated `Client{ID, Conn, Room, MicOn}` object;
`clients[id]`, when present, points to the unique `Client` object whose
immutable `ID` field is `id`.

We model the heap of `Client` objects as an association list `conns` keyed by
the immutable `ID` (entries are never deleted: a `*Client` pointer stays valid
after `delete(clients, id)`), the key set of the `clients` map as the list
`registered`, and `roomUsers` as an association list.  Delivering a message on
a connection's websocket is modelled as emitting a pair
`(recipient id, message)`; `json.RawMessage` payloads are opaque strings.
-/

namespace Signaling

/-- Wire-level message envelope (struct `Message` in `main.go`). -/
structure User where
  id : String
  micOn : Bool
deriving DecidableEq, Repr

structure Message where
  type : String
  room : String := ""
  «to» : String := ""
  «from» : String := ""
  offer : String := ""
  answer : String := ""
  candidate : String := ""
  micOn : Option Bool := none
  users : List User := []
  id : String := ""
deriving DecidableEq, Repr

/-- The heap object behind a `*Client` (the `Conn` handle is represented by
the `id` used to address output). -/
structure Client where
  id : String
  room : String := ""
  micOn : Bool := true
deriving DecidableEq, Repr

/-- Go map read `m[k]` (returning an `Option`, `none` when the key is absent). -/
def getKey {α : Type} : List (String × α) → String → Option α
  | [], _ => none
  | (k', v) :: l, k => if k' = k then some v else getKey l k

/-- Go map write `m[k] = v`: replace the binding in place, or append it. -/
def setKey {α : Type} : List (String × α) → String → α → List (String × α)
  | [], k, v => [(k, v)]
  | (k', v') :: l, k, v => if k' = k then (k, v) :: l else (k', v') :: setKey l k v

/-- Shared server state: `conns` is the heap of `Client` objects keyed by
immutable id, `registered` the key set of the `clients` map, `roomUsers` the
membership table. -/
structure ServerState where
  conns : List (String × Client) := []
  registered : List String := []
  roomUsers : List (String × List String) := []
deriving DecidableEq, Repr

/-- Read of `clients[cid]`: the lookup succeeds iff the key is in the map, and then
yields the (current state of the) heap object for `cid`. -/
def clientsLookup (s : ServerState) (cid : String) : Option Client :=
  if cid ∈ s.registered then getKey s.conns cid else none

/-- Dereference connection `cid`'s own `*Client` pointer (used by the handler
for `client.Room`, `client.MicOn`, `client.ID`; the handler only runs for
connections that were allocated, so the default is never reached there). -/
def clientObj (s : ServerState) (cid : String) : Client :=
  (getKey s.conns cid).getD { id := cid }

/-- A field write through connection `cid`'s `*Client` pointer. -/
def setClientObj (s : ServerState) (cid : String) (c : Client) : ServerState :=
  { s with conns := setKey s.conns cid c }

/-- Registration (`main.go` lines 61–63): allocate `&Client{ID: id, Conn: conn, MicOn: true}`
and store it under the fresh uuid `cid` (`clients[id] = client`). -/
def register (s : ServerState) (cid : String) : ServerState :=
  { s with
    conns := setKey s.conns cid { id := cid, room := "", micOn := true },
    registered := if cid ∈ s.registered then s.registered else s.registered ++ [cid] }

/-- Read of `roomUsers[room]` as the Go code does it (`nil` slice when absent). -/
def memberList (s : ServerState) (room : String) : List String :=
  (getKey s.roomUsers room).getD []

/-- Function `sendTo` (lines 111–115): deliver to `clients[id]` when present, silently
drop otherwise. -/
def sendTo (s : ServerState) (cid : String) (msg : Message) : List (String × Message) :=
  match clientsLookup s cid with
  | some target => [(target.id, msg)]
  | none => []

/-- First loop of `broadcastUserList` (lines 125–130): build the roster from
`roomUsers[room]`, keeping only ids still present in `clients`. -/
def rosterOf (s : ServerState) (room : String) : List User :=
  (memberList s room).filterMap fun cid =>
    match clientsLookup s cid with
    | some c => some { id := c.id, micOn := c.micOn }
    | none => none

/-- Function `broadcastUserList` (lines 121–137): compute the roster once, then push a
`user_list` message carrying it to every member still present in `clients`. -/
def broadcastUserList (s : ServerState) (room : String) : List (String × Message) :=
  let users := rosterOf s room
  (memberList s room).filterMap fun cid =>
    match clientsLookup s cid with
    | some c => some (c.id, { type := "user_list", users := users : Message })
    | none => none

/-- Function `removeClient` (lines 139–154): `delete(clients, c.ID)`, then rebuild
`roomUsers[c.Room]` without `c.ID` when that key is present. -/
def removeClient (s : ServerState) (c : Client) : ServerState :=
  let s1 : ServerState := { s with registered := s.registered.filter fun k => decide (k ≠ c.id) }
  match getKey s1.roomUsers c.room with
  | some users =>
      { s1 with roomUsers := setKey s1.roomUsers c.room (users.filter fun k => decide (k ≠ c.id)) }
  | none => s1

/-- The `switch msg.Type` of the read loop (lines 80–103), for the connection
whose server-assigned id is `cid`.  Returns the new state and the messages
delivered to peers (recipient id, message). -/
def handleMessage (s : ServerState) (cid : String) (msg : Message) :
    ServerState × List (String × Message) :=
  if msg.type = "join" then
    -- client.Room = msg.Room; roomUsers[msg.Room] = append(roomUsers[msg.Room], client.ID)
    let s1 := setClientObj s cid { clientObj s cid with room := msg.room }
    let s2 := { s1 with
      roomUsers := setKey s1.roomUsers msg.room (memberList s1 msg.room ++ [(clientObj s1 cid).id]) }
    (s2, broadcastUserList s2 msg.room)
  else if msg.type = "leave" then
    -- removeClient(client); broadcastUserList(msg.Room)
    let s1 := removeClient s (clientObj s cid)
    (s1, broadcastUserList s1 msg.room)
  else if msg.type = "mic" then
    match msg.micOn with
    | some b =>
        let s1 := setClientObj s cid { clientObj s cid with micOn := b }
        (s1, broadcastUserList s1 (clientObj s1 cid).room)
    | none => (s, [])
  else if msg.type = "offer" ∨ msg.type = "answer" ∨ msg.type = "candidate" then
    -- msg.From = client.ID; sendTo(msg.To, msg)
    (s, sendTo s msg.«to» { msg with «from» := (clientObj s cid).id })
  else
    (s, [])

/-- Run a sequence of inbound frames for connection `cid` (the read loop,
ignoring the delivered output). -/
def runMsgs (s : ServerState) (cid : String) : List Message → ServerState
  | [] => s
  | m :: ms => runMsgs (handleMessage s cid m).1 cid ms

/-! ### Concrete fixture states (used by the closed evaluation theorems) -/

/-- A join message for room `r`. -/
def joinMsg (r : String) : Message := { type := "join", room := r }

/-- One freshly registered connection `"c"`. -/
def s0c : ServerState := register {} "c"

/-- State where `"c"` joined room `"r"` twice. -/
def sDup : ServerState := runMsgs s0c "c" [joinMsg "r", joinMsg "r"]

/-- State where `"c"` joined room `"A"`. -/
def sA : ServerState := runMsgs s0c "c" [joinMsg "A"]

/-- State where `"c"` joined room `"A"`, then room `"B"` (no leave in between). -/
def sAB : ServerState := runMsgs sA "c" [joinMsg "B"]

/-- Two registered connections: `"c1"` in room `"r"`, `"c2"` in room `"q"`. -/
def sTwoRooms : ServerState :=
  (handleMessage (register (handleMessage (register {} "c1") "c1" (joinMsg "r")).1 "c2")
    "c2" (joinMsg "q")).1

/-- Two registered, room-less connections `"snd"` and `"tgt"`. -/
def sRelay : ServerState := register (register {} "snd") "tgt"

/-- Registry entry `"a"` plus a stale membership entry `"dead"` in room `"r"`
whose connection has vanished from the `clients` map. -/
def sStale : ServerState :=
  { conns := [("a", { id := "a" }), ("dead", { id := "dead", room := "r" })],
    registered := ["a"],
    roomUsers := [("r", ["a", "dead"])] }

/-- Fixture for the removal frame property: clients `"a"` and `"b"`,
rooms `"r1"` and `"r2"`. -/
def sFrame : ServerState :=
  { conns := [("a", { id := "a" }), ("b", { id := "b", room := "r1" })],
    registered := ["a", "b"],
    roomUsers := [("r1", ["b", "a"]), ("r2", ["a"])] }

/-- The `*Client` object of `"b"` in `sFrame`. -/
def cFrame : Client := { id := "b", room := "r1" }

/-- Heap well-formedness: every `Client` object is stored under its own
immutable `ID`.  Every state built by `register` / the handler satisfies it. -/
def WFConns (s : ServerState) : Prop :=
  ∀ p ∈ s.conns, (Prod.snd p).id = p.1

instance (s : ServerState) : Decidable (WFConns s) :=
  inferInstanceAs (Decidable (∀ p ∈ s.conns, (Prod.snd p).id = p.1))

/-! ### Association-list lemmas -/

theorem getKey_setKey_self {α : Type} (l : List (String × α)) (k : String) (v : α) :
    getKey (setKey l k v) k = some v := by
  induction l with
  | nil => simp [getKey, setKey]
  | cons p t ih =>
    obtain ⟨a, b⟩ := p
    by_cases h : a = k
    · simp [setKey, h, getKey]
    · simp [setKey, h, getKey, ih]

theorem getKey_setKey_ne {α : Type} (l : List (String × α)) (k k' : String) (v : α)
    (h : k' ≠ k) : getKey (setKey l k v) k' = getKey l k' := by
  induction l with
  | nil => simp [getKey, setKey, Ne.symm h]
  | cons p t ih =>
    obtain ⟨a, b⟩ := p
    by_cases ha : a = k
    · subst ha
      simp [setKey, getKey, Ne.symm h]
    · simp [setKey, ha, getKey, ih]

theorem setKey_setKey {α : Type} (l : List (String × α)) (k : String) (v w : α) :
    setKey (setKey l k v) k w = setKey l k w := by
  induction l with
  | nil => simp [setKey]
  | cons p t ih =>
    obtain ⟨a, b⟩ := p
    by_cases h : a = k
    · simp [setKey, h]
    · simp [setKey, h, ih]

theorem getKey_mem {α : Type} {l : List (String × α)} {k : String} {v : α}
    (h : getKey l k = some v) : (k, v) ∈ l := by
  induction l with
  | nil => simp [getKey] at h
  | cons p t ih =>
    obtain ⟨a, b⟩ := p
    by_cases ha : a = k
    · subst ha
      simp [getKey] at h
      simp [h]
    · simp [getKey, ha] at h
      exact List.mem_cons_of_mem _ (ih h)

theorem filter_self_idem {α : Type} (p : α → Bool) (l : List α) :
    (l.filter p).filter p = l.filter p :=
  List.filter_eq_self.mpr fun _ ha => List.of_mem_filter ha

/-! ### Well-formedness consequences -/

theorem clientsLookup_wf {s : ServerState} {cid : String} {c : Client}
    (hwf : WFConns s) (h : clientsLookup s cid = some c) : c.id = cid := by
  unfold clientsLookup at h
  by_cases hr : cid ∈ s.registered
  · simp [hr] at h
    exact hwf _ (getKey_mem h)
  · simp [hr] at h

theorem clientObj_id {s : ServerState} (cid : String) (hwf : WFConns s) :
    (clientObj s cid).id = cid := by
  unfold clientObj
  cases h : getKey s.conns cid with
  | none => rfl
  | some c => exact hwf _ (getKey_mem h)

/-! ### `removeClient` lemmas -/

theorem removeClient_conns (s : ServerState) (c : Client) :
    (removeClient s c).conns = s.conns := by
  unfold removeClient
  cases h : getKey s.roomUsers c.room <;> simp [h]

theorem removeClient_registered (s : ServerState) (c : Client) :
    (removeClient s c).registered = s.registered.filter fun k => decide (k ≠ c.id) := by
  unfold removeClient
  cases h : getKey s.roomUsers c.room <;> simp [h]

theorem clientsLookup_removeClient_self (s : ServerState) (c : Client) :
    clientsLookup (removeClient s c) c.id = none := by
  unfold clientsLookup
  rw [removeClient_registered]
  simp [List.mem_filter]

theorem clientsLookup_removeClient_ne (s : ServerState) (c : Client) (k : String)
    (h : k ≠ c.id) : clientsLookup (removeClient s c) k = clientsLookup s k := by
  unfold clientsLookup
  rw [removeClient_registered, removeClient_conns]
  simp [List.mem_filter, h]

theorem getKey_removeClient_ne (s : ServerState) (c : Client) (r : String)
    (h : r ≠ c.room) : getKey (removeClient s c).roomUsers r = getKey s.roomUsers r := by
  unfold removeClient
  cases hm : getKey s.roomUsers c.room with
  | none => simp [hm]
  | some users => simp [hm, getKey_setKey_ne _ _ _ _ h]

theorem not_mem_memberList_removeClient (s : ServerState) (c : Client) :
    c.id ∉ memberList (removeClient s c) c.room := by
  unfold removeClient memberList
  cases hm : getKey s.roomUsers c.room with
  | none => simp [hm]
  | some users =>
    simp only [hm, getKey_setKey_self, Option.getD_some]
    intro hmem
    have := List.of_mem_filter hmem
    simp at this

theorem removeClient_idem (s : ServerState) (c : Client) :
    removeClient (removeClient s c) c = removeClient s c := by
  have hreg : ((removeClient s c).registered.filter fun k => decide (k ≠ c.id))
      = (removeClient s c).registered := by
    rw [removeClient_registered]
    exact filter_self_idem _ _
  unfold removeClient
  cases hm : getKey s.roomUsers c.room with
  | none =>
    simp only [hm]
    cases hm2 : getKey ({ s with
        registered := s.registered.filter fun k => decide (k ≠ c.id) } : ServerState).roomUsers
        c.room with
    | none =>
      simp [filter_self_idem]
    | some u =>
      simp at hm2
      rw [hm2] at hm
      exact absurd hm (by simp)
  | some users =>
    simp only [hm, getKey_setKey_self]
    simp [setKey_setKey, filter_self_idem]

/-! ### Handler case lemmas -/

theorem handleMessage_relay (s : ServerState) (cid : String) (msg : Message)
    (h : msg.type = "offer" ∨ msg.type = "answer" ∨ msg.type = "candidate") :
    handleMessage s cid msg =
      (s, sendTo s msg.«to» { msg with «from» := (clientObj s cid).id }) := by
  unfold handleMessage
  rcases h with h | h | h <;> rw [h] <;>
    rw [if_neg (by decide), if_neg (by decide), if_neg (by decide), if_pos (by decide)]

/-- Claim C5 — relay correctness: handling an offer/answer/candidate message whose
`to` id is registered keeps the state unchanged and delivers exactly one
message to that target, with `from` overwritten by the sender's server-assigned
id and the payload fields untouched. -/
theorem relay_delivers_stamped (s : ServerState) (cid : String) (msg : Message)
    (hwf : WFConns s)
    (htype : msg.type = "offer" ∨ msg.type = "answer" ∨ msg.type = "candidate")
    (hto : (clientsLookup s msg.«to»).isSome) :
    (handleMessage s cid msg).1 = s ∧
    (handleMessage s cid msg).2 = [(msg.«to», { msg with «from» := cid })] := by
  rw [handleMessage_relay s cid msg htype]
  refine ⟨rfl, ?_⟩
  unfold sendTo
  cases h : clientsLookup s msg.«to» with
  | none => rw [h] at hto; simp at hto
  | some target => simp [clientsLookup_wf hwf h, clientObj_id cid hwf]

/-- Witness for C5: a registered sender relays an offer to a registered target;
the single delivered message carries `from = "snd"` and the original payload. -/
theorem relay_delivers_stamped_witness :
    (handleMessage (register (register {} "snd") "tgt") "snd"
        { type := "offer", «to» := "tgt", «from» := "evil", offer := "SDP" }).1
      = register (register {} "snd") "tgt" ∧
    (handleMessage (register (register {} "snd") "tgt") "snd"
        { type := "offer", «to» := "tgt", «from» := "evil", offer := "SDP" }).2
      = [(({ type := "offer", «to» := "tgt", «from» := "evil", offer := "SDP" } : Message).«to»,
          { ({ type := "offer", «to» := "tgt", «from» := "evil", offer := "SDP" } : Message) with
            «from» := "snd" })] :=
  relay_delivers_stamped (register (register {} "snd") "tgt") "snd"
    { type := "offer", «to» := "tgt", «from» := "evil", offer := "SDP" }
    (by decide) (by decide) (by decide)

/-- Claim C6 — relay miss: handling an offer/answer/candidate message whose `to`
id is not registered delivers nothing and leaves the whole state unchanged. -/
theorem relay_miss_noop (s : ServerState) (cid : String) (msg : Message)
    (htype : msg.type = "offer" ∨ msg.type = "answer" ∨ msg.type = "candidate")
    (hto : clientsLookup s msg.«to» = none) :
    handleMessage s cid msg = (s, []) := by
  rw [handleMessage_relay s cid msg htype]
  simp [sendTo, hto]

/-- Witness for C6: relaying an answer to an unknown id is a complete no-op. -/
theorem relay_miss_noop_witness :
    handleMessage (register {} "snd") "snd"
        { type := "answer", «to» := "ghost", answer := "SDP" }
      = (register {} "snd", []) :=
  relay_miss_noop (register {} "snd") "snd"
    { type := "answer", «to» := "ghost", answer := "SDP" }
    (by decide) (by decide)

/-- Claim C7 — unknown message types are inert: a message whose `type` is none of
join/leave/mic/offer/answer/candidate changes no state and sends nothing. -/
theorem unknown_type_inert (s : ServerState) (cid : String) (msg : Message)
    (h : msg.type ∉ (["join", "leave", "mic", "offer", "answer", "candidate"] : List String)) :
    handleMessage s cid msg = (s, []) := by
  simp only [List.mem_cons, List.not_mem_nil, or_false, not_or] at h
  obtain ⟨h1, h2, h3, h4, h5, h6⟩ := h
  unfold handleMessage
  rw [if_neg h1, if_neg h2, if_neg h3, if_neg (by simp [h4, h5, h6])]

/-- Witness for C7: a `"chat"` message leaves a registered client's state
untouched and produces no output. -/
theorem unknown_type_inert_witness :
    handleMessage (register {} "c") "c" { type := "chat" } = (register {} "c", []) :=
  unknown_type_inert (register {} "c") "c" { type := "chat" } (by decide)

/-- Claim C10 — frame property of `removeClient`: the heap is untouched, every
registry entry other than `c.id` resolves as before, and every room other than
`c.room` keeps its member list. -/
theorem removeClient_frame (s : ServerState) (c : Client) (k r : String)
    (hk : k ≠ c.id) (hr : r ≠ c.room) :
    (removeClient s c).conns = s.conns ∧
    clientsLookup (removeClient s c) k = clientsLookup s k ∧
    getKey (removeClient s c).roomUsers r = getKey s.roomUsers r :=
  ⟨removeClient_conns s c, clientsLookup_removeClient_ne s c k hk,
    getKey_removeClient_ne s c r hr⟩

/-- Witness for C10: removing client `b` (in room `r1`) does not disturb
client `a`'s registry entry nor room `r2`'s member list. -/
theorem removeClient_frame_witness :
    (removeClient sFrame cFrame).conns = sFrame.conns ∧
    clientsLookup (removeClient sFrame cFrame) "a" = clientsLookup sFrame "a" ∧
    getKey (removeClient sFrame cFrame).roomUsers "r2" = getKey sFrame.roomUsers "r2" :=
  removeClient_frame sFrame cFrame "a" "r2" (by decide) (by decide)

/-- Claim C1 — the claim fails on the code: the join handler appends
`client.ID` to `roomUsers[msg.Room]` unconditionally (`main.go` line 84), so a
connection that handles `join` for room `"r"` twice ends up listed twice.
This theorem evaluates the code at that failing input. -/
theorem repeated_join_duplicates :
    memberList sDup "r" = ["c", "c"] ∧ ¬ (memberList sDup "r").Nodup := by decide

/-- Counterexample for C2: after `"c"` joins `"A"` and then `"B"` (no leave in
between), `removeClient` deletes the registry entry and cleans room `"B"` (the
room in `c.Room`) only — `"c"` is still in room `"A"`'s member list, refuting
"`id` appears in no room's member list". -/
theorem remove_leaves_stale_membership_cex :
    clientsLookup (removeClient sAB (clientObj sAB "c")) "c" = none ∧
    "c" ∈ memberList (removeClient sAB (clientObj sAB "c")) "A" := by decide

/-- Claim C2 (amended) — after `removeClient`, the connection's id resolves to
absent, its id is gone from the member list of the room recorded in its `room`
field (other rooms' lists may retain it), and a second `removeClient` for the
same connection is a no-op. -/
theorem removeClient_postcondition_amended (s : ServerState) (c : Client) :
    clientsLookup (removeClient s c) c.id = none ∧
    c.id ∉ memberList (removeClient s c) c.room ∧
    removeClient (removeClient s c) c = removeClient s c :=
  ⟨clientsLookup_removeClient_self s c, not_mem_memberList_removeClient s c,
    removeClient_idem s c⟩

theorem handleMessage_leave (s : ServerState) (cid : String) (msg : Message)
    (h : msg.type = "leave") :
    handleMessage s cid msg =
      (removeClient s (clientObj s cid),
       broadcastUserList (removeClient s (clientObj s cid)) msg.room) := by
  unfold handleMessage
  rw [h, if_neg (by decide), if_pos rfl]

/-- Counterexample for C3: `"c1"` is in room `"r"`, `"c2"` in room `"q"`; when
`"c1"` handles `leave` with `room = "q"`, it is deleted from the Registry
(lookup fails, contra "still present"), its `room` field keeps `"r"` (contra
"clears the room field"), and the broadcast goes to room `"q"` named in the
message (contra "the room it was in, captured before clearing"). -/
theorem leave_deletes_from_registry_cex :
    clientsLookup ((handleMessage sTwoRooms "c1" { type := "leave", room := "q" }).1) "c1"
      = none ∧
    (clientObj ((handleMessage sTwoRooms "c1" { type := "leave", room := "q" }).1) "c1").room
      = "r" ∧
    (handleMessage sTwoRooms "c1" { type := "leave", room := "q" }).2
      = [("c2", { type := "user_list", users := [{ id := "c2", micOn := true }] })] := by
  decide

/-- Claim C3 (amended) — handling a `leave` message removes the connection's id
from its current room's member list but also deletes the connection from the
Registry (subsequent lookups fail); the `Client`'s `room` field is left
unchanged; the broadcast that follows is for the room named in the leave
message. -/
theorem leave_semantics_amended (s : ServerState) (cid : String) (msg : Message)
    (h : msg.type = "leave") :
    clientsLookup ((handleMessage s cid msg).1) (clientObj s cid).id = none ∧
    (clientObj s cid).id ∉
      memberList ((handleMessage s cid msg).1) (clientObj s cid).room ∧
    clientObj ((handleMessage s cid msg).1) cid = clientObj s cid ∧
    (handleMessage s cid msg).2 = broadcastUserList ((handleMessage s cid msg).1) msg.room := by
  rw [handleMessage_leave s cid msg h]
  refine ⟨clientsLookup_removeClient_self s (clientObj s cid),
    not_mem_memberList_removeClient s (clientObj s cid), ?_, rfl⟩
  unfold clientObj
  rw [removeClient_conns]

/-- Witness for C3 (amended): `"c"` in room `"A"` handles a matching leave. -/
theorem leave_semantics_amended_witness :
    clientsLookup ((handleMessage sA "c" { type := "leave", room := "A" }).1)
        (clientObj sA "c").id = none ∧
    (clientObj sA "c").id ∉
      memberList ((handleMessage sA "c" { type := "leave", room := "A" }).1)
        (clientObj sA "c").room ∧
    clientObj ((handleMessage sA "c" { type := "leave", room := "A" }).1) "c"
      = clientObj sA "c" ∧
    (handleMessage sA "c" { type := "leave", room := "A" }).2
      = broadcastUserList ((handleMessage sA "c" { type := "leave", room := "A" }).1) "A" :=
  leave_semantics_amended sA "c" { type := "leave", room := "A" } rfl

/-! ### Broadcast / roster lemmas -/

theorem broadcastUserList_eq (s : ServerState) (room : String) :
    broadcastUserList s room = (memberList s room).filterMap fun cid =>
      match clientsLookup s cid with
      | some c => some (c.id, ({ type := "user_list", users := rosterOf s room } : Message))
      | none => none := rfl

theorem mem_rosterOf_isSome {s : ServerState} {room : String} {u : User}
    (hwf : WFConns s) (hu : u ∈ rosterOf s room) : (clientsLookup s u.id).isSome := by
  unfold rosterOf at hu
  rw [List.mem_filterMap] at hu
  obtain ⟨cid, _, hmatch⟩ := hu
  cases h : clientsLookup s cid with
  | none => rw [h] at hmatch; simp at hmatch
  | some c =>
    rw [h] at hmatch
    simp only [Option.some.injEq] at hmatch
    have hid : u.id = c.id := by rw [← hmatch]
    rw [hid, clientsLookup_wf hwf h, h]
    rfl

theorem mem_broadcast_snd {s : ServerState} {room : String} {p : String × Message}
    (hp : p ∈ broadcastUserList s room) :
    p.2 = { type := "user_list", users := rosterOf s room } := by
  rw [broadcastUserList_eq, List.mem_filterMap] at hp
  obtain ⟨cid, _, hmatch⟩ := hp
  cases h : clientsLookup s cid with
  | none => rw [h] at hmatch; simp at hmatch
  | some c =>
    rw [h] at hmatch
    simp only [Option.some.injEq] at hmatch
    rw [← hmatch]

theorem broadcast_map_fst (s : ServerState) (room : String) (hwf : WFConns s) :
    (broadcastUserList s room).map Prod.fst
      = (memberList s room).filter fun cid => (clientsLookup s cid).isSome := by
  rw [broadcastUserList_eq]
  induction memberList s room with
  | nil => rfl
  | cons a t ih =>
    rw [List.filterMap_cons, List.filter_cons]
    cases h : clientsLookup s a with
    | none => simpa [h] using ih
    | some c =>
      simp only [Option.isSome_some, if_true, List.map_cons, ih]
      rw [clientsLookup_wf hwf h]

/-- Claim C4 — roster liveness filter: every entry of the roster, and every
entry of the `users` list of every delivered `user_list` message, names a
connection currently present in the `clients` map; stale membership entries
are silently excluded. -/
theorem roster_liveness_filter (s : ServerState) (room : String) (hwf : WFConns s) :
    (∀ u ∈ rosterOf s room, (clientsLookup s u.id).isSome) ∧
    (∀ p ∈ broadcastUserList s room, ∀ u ∈ p.2.users, (clientsLookup s u.id).isSome) := by
  refine ⟨fun u hu => mem_rosterOf_isSome hwf hu, fun p hp u hu => ?_⟩
  rw [mem_broadcast_snd hp] at hu
  exact mem_rosterOf_isSome hwf hu

/-- Witness for C4: in `sStale`, room `"r"` lists `"a"` and the vanished
`"dead"`; the roster and all broadcast payloads only name live connections. -/
theorem roster_liveness_filter_witness :
    (∀ u ∈ rosterOf sStale "r", (clientsLookup sStale u.id).isSome) ∧
    (∀ p ∈ broadcastUserList sStale "r", ∀ u ∈ p.2.users,
      (clientsLookup sStale u.id).isSome) :=
  roster_liveness_filter sStale "r" (by decide)

/-- Claim C8 — single-snapshot broadcast: every message pushed by one
`broadcastUserList` call is the same `user_list` message carrying the one
roster computed from the call's state, and it goes to exactly the members of
the room that are still present in `clients`, in member-list order. -/
theorem broadcast_single_snapshot (s : ServerState) (room : String) (hwf : WFConns s) :
    (∀ p ∈ broadcastUserList s room,
        p.2 = { type := "user_list", users := rosterOf s room }) ∧
    (broadcastUserList s room).map Prod.fst
      = (memberList s room).filter fun cid => (clientsLookup s cid).isSome :=
  ⟨fun _ hp => mem_broadcast_snd hp, broadcast_map_fst s room hwf⟩

/-- Witness for C8 at the concrete state `sStale`. -/
theorem broadcast_single_snapshot_witness :
    (∀ p ∈ broadcastUserList sStale "r",
        p.2 = { type := "user_list", users := rosterOf sStale "r" }) ∧
    (broadcastUserList sStale "r").map Prod.fst
      = (memberList sStale "r").filter fun cid => (clientsLookup sStale cid).isSome :=
  broadcast_single_snapshot sStale "r" (by decide)

/-! ### Join case lemma and the room-switch behaviour -/

theorem handleMessage_join_state (s : ServerState) (cid : String) (msg : Message)
    (h : msg.type = "join") :
    (handleMessage s cid msg).1 =
      { conns := setKey s.conns cid { clientObj s cid with room := msg.room },
        registered := s.registered,
        roomUsers := setKey s.roomUsers msg.room
          (memberList s msg.room ++ [(clientObj s cid).id]) } := by
  unfold handleMessage
  rw [if_pos h]
  simp only [setClientObj, memberList, clientObj, getKey_setKey_self, Option.getD_some]

/-- Claim C9 — no implicit leave on room switch: a connection listed in room
`A` that handles `join` for a different room `B` gets appended to `B`'s member
list while remaining in `A`'s; a subsequent `removeClient` erases it from `B`
(the room in its `room` field) only, leaving the stale entry in `A`. -/
theorem room_switch_keeps_old_membership (s : ServerState) (cid A B : String)
    (hwf : WFConns s) (hAB : A ≠ B) (hmem : cid ∈ memberList s A) :
    memberList ((handleMessage s cid { type := "join", room := B }).1) B
      = memberList s B ++ [cid] ∧
    cid ∈ memberList ((handleMessage s cid { type := "join", room := B }).1) A ∧
    (clientObj ((handleMessage s cid { type := "join", room := B }).1) cid).room = B ∧
    cid ∉ memberList
        (removeClient ((handleMessage s cid { type := "join", room := B }).1)
          (clientObj ((handleMessage s cid { type := "join", room := B }).1) cid)) B ∧
    cid ∈ memberList
        (removeClient ((handleMessage s cid { type := "join", room := B }).1)
          (clientObj ((handleMessage s cid { type := "join", room := B }).1) cid)) A := by
  have hid : (clientObj s cid).id = cid := clientObj_id cid hwf
  have hj := handleMessage_join_state s cid { type := "join", room := B } rfl
  set j := (handleMessage s cid { type := "join", room := B }).1 with hjdef
  have hj' : j = { conns := setKey s.conns cid { clientObj s cid with room := B },
                   registered := s.registered,
                   roomUsers := setKey s.roomUsers B (memberList s B ++ [cid]) } := by
    rw [hj]
    simp [hid]
  have hco : clientObj j cid = { clientObj s cid with room := B } := by
    rw [hj', clientObj, getKey_setKey_self]
    rfl
  have hid2 : (clientObj j cid).id = cid := by rw [hco]; exact hid
  have hroom2 : (clientObj j cid).room = B := by rw [hco]
  have hF1 : memberList j B = memberList s B ++ [cid] := by
    rw [hj']
    simp only [memberList, getKey_setKey_self, Option.getD_some]
  have hF2 : memberList j A = memberList s A := by
    rw [hj']
    simp only [memberList]
    rw [getKey_setKey_ne _ _ _ _ hAB]
  have h4 := not_mem_memberList_removeClient j (clientObj j cid)
  rw [hid2, hroom2] at h4
  have h5 := getKey_removeClient_ne j (clientObj j cid) A (by rw [hroom2]; exact hAB)
  have hF5 : memberList (removeClient j (clientObj j cid)) A = memberList j A := by
    simp only [memberList]
    rw [h5]
  exact ⟨hF1, hF2 ▸ hmem, hroom2, h4, by rw [hF5, hF2]; exact hmem⟩

/-- Witness for C9: `"c"` is in room `"A"`, joins `"B"`, is then removed. -/
theorem room_switch_keeps_old_membership_witness :
    memberList ((handleMessage sA "c" { type := "join", room := "B" }).1) "B"
      = memberList sA "B" ++ ["c"] ∧
    "c" ∈ memberList ((handleMessage sA "c" { type := "join", room := "B" }).1) "A" ∧
    (clientObj ((handleMessage sA "c" { type := "join", room := "B" }).1) "c").room = "B" ∧
    "c" ∉ memberList
        (removeClient ((handleMessage sA "c" { type := "join", room := "B" }).1)
          (clientObj ((handleMessage sA "c" { type := "join", room := "B" }).1) "c")) "B" ∧
    "c" ∈ memberList
        (removeClient ((handleMessage sA "c" { type := "join", room := "B" }).1)
          (clientObj ((handleMessage sA "c" { type := "join", room := "B" }).1) "c")) "A" :=
  room_switch_keeps_old_membership sA "c" "A" "B" (by decide) (by decide) (by decide)

end Signaling
